import Mathlib

/-!
Shallow embedding of the go-butterflymx client library core: identifier
model, reference store, reference-aware decoder, compound-document
assembler, typed-reference resolver, pagination accumulator and the
renewable credential cache, together with theorems settling the spec's
claims about them.
-/

namespace ButterflyMX

/-- JSON scalar values, enough to populate entity fields in this model. -/
inductive JValue where
  | jnum : Int → JValue
  | jstr : String → JValue
deriving DecidableEq

/-- A JSON object: an ordered list of key/value fields. -/
abbrev JObj := List (String × JValue)

/-- A decoded entity, modelled at the field level: the fields that a
sequence of `json.Unmarshal` calls has populated on the target value. -/
abbrev Entity := List (String × JValue)

/-- Association-list update, modelling both a Go map store (`m[k] = v`)
and `json.Unmarshal` setting one struct field: replaces the binding for
`k` if present, otherwise appends it. -/
def alistInsert {α β : Type} [DecidableEq α] : List (α × β) → α → β → List (α × β)
  | [], k, v => [(k, v)]
  | kv :: rest, k, v => if kv.1 = k then (k, v) :: rest else kv :: alistInsert rest k v

/-- Association-list lookup; the first binding wins (lists built by
`alistInsert` keep keys unique, so this is map indexing). -/
def alistLookup {α β : Type} [DecidableEq α] : List (α × β) → α → Option β
  | [], _ => none
  | kv :: rest, k => if kv.1 = k then some kv.2 else alistLookup rest k

/-- Insert a list of bindings in order; later bindings overwrite earlier
ones, modelling a Go loop of map assignments. -/
def alistInsertAll {α β : Type} [DecidableEq α] :
    List (α × β) → List (α × β) → List (α × β)
  | m, [] => m
  | m, kv :: rest => alistInsertAll (alistInsert m kv.1 kv.2) rest

/-- The value the last binding for `k` in the list carries, if any. -/
def lastVal {α β : Type} [DecidableEq α] : List (α × β) → α → Option β
  | [], _ => none
  | kv :: rest, k =>
    match lastVal rest k with
    | some v => some v
    | none => if kv.1 = k then some kv.2 else none

/-- `RawReference`: envelope `{ID, Type}` plus the inlined payload object,
`none` when the reference is a bare relationship pointer without payload
(Go `Data jsontext.Value` being `nil`). -/
structure RawReference where
  id : Int
  ty : String
  data : Option JObj
deriving DecidableEq

/-- Error of `unmarshalReference` (a `nil` payload makes the payload
unmarshal step fail). -/
inductive DecodeError where
  | unmarshalFailed : DecodeError
deriving DecidableEq

/-- Apply a JSON object to a value: `json.Unmarshal` sets exactly the
fields the object mentions and leaves every other field of the existing
value untouched. -/
def applyObj (e : Entity) (obj : JObj) : Entity := alistInsertAll e obj

/-- The envelope object `{"id": ..., "type": ...}` obtained by marshalling
the reference with its payload stripped (`refOnly` in the source). -/
def envelopeObj (raw : RawReference) : JObj :=
  [("id", JValue.jnum raw.id), ("type", JValue.jstr raw.ty)]

/-- `unmarshalReference`: decode the envelope into a zero value, then
decode the payload over it; payload fields win on collision because they
are applied second. A `nil` payload fails the joined unmarshal. -/
def unmarshalReference (raw : RawReference) : Except DecodeError Entity :=
  match raw.data with
  | none => Except.error DecodeError.unmarshalFailed
  | some obj => Except.ok (applyObj (applyObj [] (envelopeObj raw)) obj)

/-- The entity `unmarshalReference` produces when the payload is present. -/
def decodeEntity (raw : RawReference) : Entity :=
  applyObj (applyObj [] (envelopeObj raw)) (raw.data.getD [])

/-- Read one field of a decoded entity. -/
def getField (e : Entity) (k : String) : Option JValue := alistLookup e k

/-- The reference store: Go `map[ID]RawReference` modelled as an
association list with unique keys. -/
abbrev Store := List (Int × RawReference)

/-- Map indexing on the store. -/
def storeLookup (m : Store) (k : Int) : Option RawReference := alistLookup m k

/-- The bindings a loop `for _, raw := range rs { m[raw.ID] = raw }`
performs, in order. -/
def refPairs (rs : List RawReference) : List (Int × RawReference) :=
  rs.map (fun r => (r.id, r))

/-- Errors of `unmarshalResultsWithReferences`. -/
inductive AssembleError where
  | missingData : Int → AssembleError
  | decodeFailed : Int → AssembleError
  | missingDataIncluded : Int → AssembleError
deriving DecidableEq

/-- `ResultsWithReferences`: the decoded primary list plus the reference
store. -/
structure ResultsWithReferences where
  Data : List Entity
  Refs : Store
deriving DecidableEq

/-- First loop of `unmarshalResultsWithReferences`: reject a primary item
with absent payload, decode the rest in order. -/
def decodePrimary : List RawReference → Except AssembleError (List Entity)
  | [] => Except.ok []
  | raw :: rest =>
    match raw.data with
    | none => Except.error (AssembleError.missingData raw.id)
    | some _ =>
      match unmarshalReference raw with
      | Except.error _ => Except.error (AssembleError.decodeFailed raw.id)
      | Except.ok e =>
        match decodePrimary rest with
        | Except.error err => Except.error err
        | Except.ok es => Except.ok (e :: es)

/-- Third loop of `unmarshalResultsWithReferences`: insert each included
item into the store, failing on an absent payload. -/
def insertIncluded : Store → List RawReference → Except AssembleError Store
  | m, [] => Except.ok m
  | m, raw :: rest =>
    match raw.data with
    | none => Except.error (AssembleError.missingDataIncluded raw.id)
    | some _ => insertIncluded (alistInsert m raw.id raw) rest

/-- `unmarshalResultsWithReferences`: decode the primary items, populate
the store with the primary items and then the included items. -/
def unmarshalResultsWithReferences (data included : List RawReference) :
    Except AssembleError ResultsWithReferences :=
  match decodePrimary data with
  | Except.error e => Except.error e
  | Except.ok ds =>
    match insertIncluded (alistInsertAll [] (refPairs data)) included with
    | Except.error e => Except.error e
    | Except.ok refs2 => Except.ok ⟨ds, refs2⟩

/-- Errors of `TypedReference.Resolve`. -/
inductive ResolveError where
  | notFound : Int → ResolveError
  | decodeFailed : Int → ResolveError
deriving DecidableEq

/-- `TypedReference.Resolve`: a `nil` receiver resolves to an empty result
with no error; otherwise look the ID up in the store and run the
reference-aware decoder on the stored raw reference. -/
def Resolve (ref : Option RawReference) (refs : Store) :
    Except ResolveError (Option Entity) :=
  match ref with
  | none => Except.ok none
  | some r =>
    match storeLookup refs r.id with
    | none => Except.error (ResolveError.notFound r.id)
    | some dest =>
      match unmarshalReference dest with
      | Except.error _ => Except.error (ResolveError.decodeFailed r.id)
      | Except.ok e => Except.ok (some e)

/-- One page response of the access-codes endpoint: primary data, included
references, and the `links.next` field. -/
structure PageResp where
  data : List RawReference
  included : List RawReference
  next : Option String
deriving DecidableEq

/-- The accumulation loop of `Keychains`: page 1 is always consumed; the
loop continues while the page just fetched carries a non-nil `next` link,
appending each page's primary and included sequences in page order. -/
def accumulatePages : List PageResp → List RawReference × List RawReference
  | [] => ([], [])
  | p :: rest =>
    if p.next.isSome then
      let acc := accumulatePages rest
      (p.data ++ acc.1, p.included ++ acc.2)
    else (p.data, p.included)

/-- `Keychains` minus HTTP: accumulate all pages, then assemble the
accumulated sequences exactly once. -/
def keychainsAssemble (pages : List PageResp) :
    Except AssembleError ResultsWithReferences :=
  unmarshalResultsWithReferences (accumulatePages pages).1 (accumulatePages pages).2

/-- State of `reusedAPITokenSource`: the `old` cached token (empty string
models the `Empty` state) plus a count of provider invocations so far. -/
structure TokenState where
  old : String
  calls : Nat
deriving DecidableEq

/-- `reusedAPITokenSource.APIToken`. The provider is the wrapped source:
on its `k`-th invocation it returns a token value together with an
optional error (Go returns both). Note the source assigns the provider's
returned value to `s.old` before checking the error. -/
def apiToken (provider : Nat → String × Option String) (renew : Bool)
    (st : TokenState) : Except String String × TokenState :=
  if renew = false ∧ st.old ≠ "" then (Except.ok st.old, st)
  else
    let r := provider st.calls
    let st2 : TokenState := ⟨r.1, st.calls + 1⟩
    match r.2 with
    | some e => (Except.error e, st2)
    | none => (Except.ok r.1, st2)

/-- Drive a sequence of `APIToken` calls with the given renew flags,
collecting the results in order. -/
def runRequests (provider : Nat → String × Option String) :
    List Bool → TokenState → List (Except String String) × TokenState
  | [], st => ([], st)
  | f :: fs, st =>
    let r := apiToken provider f st
    let rest := runRequests provider fs r.2
    (r.1 :: rest.1, rest.2)

/-- Split a character list at the first occurrence of `sep`. -/
def splitFirst (sep : Char) : List Char → Option (List Char × List Char)
  | [] => none
  | c :: cs =>
    if c = sep then some ([], cs)
    else
      match splitFirst sep cs with
      | none => none
      | some p => some (c :: p.1, p.2)

/-- Go `strings.SplitN(s, sep, n)` for a single-character separator:
at most `n` substrings, the last holding the unsplit remainder. -/
def goSplitN (sep : Char) : Nat → List Char → List (List Char)
  | 0, _ => []
  | 1, cs => [cs]
  | n + 2, cs =>
    match splitFirst sep cs with
    | none => [cs]
    | some p => p.1 :: goSplitN sep (n + 1) p.2

/-- The numeric value of a decimal digit character, if it is one. -/
def digitVal (c : Char) : Option Nat :=
  if '0' ≤ c ∧ c ≤ '9' then some (c.toNat - '0'.toNat) else none

/-- Accumulate decimal digits left to right; any non-digit fails. -/
def parseDigitsAux : List Char → Nat → Option Nat
  | [], acc => some acc
  | c :: cs, acc =>
    match digitVal c with
    | none => none
    | some d => parseDigitsAux cs (acc * 10 + d)

/-- Digits-and-range part of Go `strconv.Atoi` on a 64-bit platform. -/
def goAtoiDigits (digits : List Char) (neg : Bool) : Option Int :=
  if digits = [] then none
  else
    match parseDigitsAux digits 0 with
    | none => none
    | some v =>
      if neg then (if v ≤ 2 ^ 63 then some (-(v : Int)) else none)
      else (if v ≤ 2 ^ 63 - 1 then some (v : Int) else none)

/-- Go `strconv.Atoi` on a 64-bit platform: optional single sign, one or
more decimal digits, signed 64-bit range. -/
def goAtoi (s : List Char) : Option Int :=
  match s with
  | [] => none
  | c :: cs =>
    if c = '-' then goAtoiDigits cs true
    else if c = '+' then goAtoiDigits cs false
    else goAtoiDigits (c :: cs) false

/-- Big-endian decimal digit characters of `n` (empty for zero); the fuel
argument only bounds the recursion. -/
def natCharsAux : Nat → Nat → List Char
  | 0, _ => []
  | fuel + 1, n =>
    if n = 0 then [] else natCharsAux fuel (n / 10) ++ [Nat.digitChar (n % 10)]

/-- Decimal digit characters of `v`, no leading zeros, `"0"` for zero. -/
def natChars (v : Nat) : List Char :=
  if v = 0 then ['0'] else natCharsAux v v

/-- Go `fmt` verb `%d` on a signed integer. -/
def formatIntChars (i : Int) : List Char :=
  if i < 0 then '-' :: natChars i.natAbs else natChars i.toNat

/-- `TaggedID`: composite identifier `{Prefix, Type, Number}` (fields
`pre`, `typ`, `num` here; `Type` is reserved in Lean). -/
structure TaggedID where
  pre : String
  typ : String
  num : Int
deriving DecidableEq

/-- Go `TaggedID.String`: `fmt.Sprintf("%s-%s-%d", ...)`. -/
def TaggedID.format (t : TaggedID) : String :=
  String.mk (t.pre.data ++ '-' :: t.typ.data ++ '-' :: formatIntChars t.num)

/-- Go `TaggedID.UnmarshalText`; `none` models `ErrInvalidTaggedID`. -/
def unmarshalText (s : String) : Option TaggedID :=
  match goSplitN '-' 3 s.data with
  | [p1, p2, p3] =>
    if p1 = "prod".data ∧ p2 ≠ [] then
      match goAtoi p3 with
      | some n => some ⟨String.mk p1, String.mk p2, n⟩
      | none => none
    else none
  | _ => none

/-- The first primary item whose payload is absent, if any (the item the
first loop of `unmarshalResultsWithReferences` trips over). -/
def firstWithNoData : List RawReference → Option RawReference
  | [] => none
  | r :: rs => if r.data = none then some r else firstWithNoData rs

/-- The validity condition of `TaggedID.UnmarshalText` as a decidable
check: the text splits into exactly 3 dash-delimited segments, segment 1
is the literal `prod`, segment 2 is non-empty, and segment 3 parses as an
integer. -/
def validTaggedText (s : String) : Bool :=
  match goSplitN '-' 3 s.data with
  | [p1, p2, p3] =>
    decide (p1 = "prod".data) && decide (p2 ≠ []) && (goAtoi p3).isSome
  | _ => false

/-- A provider that succeeds with `token1` on its first invocation and
`token2` on every later one. -/
def providerTwoTokens : Nat → String × Option String :=
  fun k => if k = 0 then ("token1", none) else ("token2", none)

/-- A provider that always succeeds but returns the empty-string token. -/
def emptyTokenProvider : Nat → String × Option String :=
  fun _ => ("", none)

/-- A provider that always fails, returning the zero-value token alongside
its error as Go providers conventionally do. -/
def failingProvider : Nat → String × Option String :=
  fun _ => ("", some "provider down")

end ButterflyMX

namespace ButterflyMX

/-- Helper: driving any number of `renew=false` requests against the
always-empty-token provider from an `Empty` cache keeps the cache empty
and invokes the provider once per request. -/
theorem runRequests_emptyToken (n c : Nat) :
    runRequests emptyTokenProvider (List.replicate n false) ⟨"", c⟩ =
      (List.replicate n (Except.ok ""), ⟨"", c + n⟩) := by
  induction n generalizing c with
  | zero => simp [runRequests]
  | succ m ih =>
    have h1 : apiToken emptyTokenProvider false ⟨"", c⟩ =
        (Except.ok "", ⟨"", c + 1⟩) := by
      simp [apiToken, emptyTokenProvider]
    have hc : c + 1 + m = c + (m + 1) := by omega
    simp only [List.replicate_succ, runRequests, h1, ih (c + 1), hc]

/-- C6: driving `Request` on an initially-Empty cache with renew flags
`[false, false, true, false]`, against a provider returning `token1` then
`token2`, yields `[token1, token1, token2, token2]` and invokes the
provider exactly twice. -/
theorem cache_request_sequence :
    runRequests providerTwoTokens [false, false, true, false] ⟨"", 0⟩ =
      ([Except.ok "token1", Except.ok "token1", Except.ok "token2",
        Except.ok "token2"], ⟨"token2", 2⟩) := by
  rfl

/-- C10: when the provider succeeds but returns the empty string, a
`renew=false` request returns it without caching it (the state keeps the
empty `old` token, indistinguishable from `Empty`), so `n` successive
`renew=false` requests all contact the provider: exactly `n` invocations
for `n` requests. -/
theorem empty_token_not_cached (n : Nat) :
    runRequests emptyTokenProvider (List.replicate n false) ⟨"", 0⟩ =
      (List.replicate n (Except.ok ""), ⟨"", n⟩) := by
  have h := runRequests_emptyToken n 0
  simpa using h

/-- Witness for `empty_token_not_cached` at `n = 2`. -/
theorem empty_token_not_cached_witness :
    runRequests emptyTokenProvider (List.replicate 2 false) ⟨"", 0⟩ =
      (List.replicate 2 (Except.ok ""), ⟨"", 2⟩) :=
  empty_token_not_cached 2

/-- C1 counterexample: with the cache in state `Cached("tokenA")`, a
failed `renew=true` call does NOT leave the previous state untouched: the
cached token is overwritten with the provider's zero-value return, and the
subsequent `renew=false` call contacts the provider again (invocation
count rises from 1 to 2) instead of returning `"tokenA"`. -/
theorem cache_renew_failure_not_atomic_cex :
    apiToken failingProvider true ⟨"tokenA", 0⟩ =
        (Except.error "provider down", ⟨"", 1⟩) ∧
      apiToken failingProvider false ⟨"", 1⟩ =
        (Except.error "provider down", ⟨"", 2⟩) := by
  exact ⟨rfl, rfl⟩

/-- C1 amended: if a `renew=true` call's provider invocation fails, the
error is surfaced, but the cached state is not left untouched: the cached
token is overwritten with whatever token value the provider returned
alongside its error; when that value is the conventional empty string, the
cache becomes `Empty`, so the next `renew=false` call contacts the
provider again. -/
theorem cache_renew_failure_overwrites (provider : Nat → String × Option String)
    (st : TokenState) (v e : String) (h : provider st.calls = (v, some e)) :
    apiToken provider true st = (Except.error e, ⟨v, st.calls + 1⟩) ∧
      (v = "" →
        (apiToken provider false (apiToken provider true st).2).2.calls =
          st.calls + 2) := by
  have h1 : apiToken provider true st = (Except.error e, ⟨v, st.calls + 1⟩) := by
    simp [apiToken, h]
  refine ⟨h1, fun hv => ?_⟩
  rw [h1]
  subst hv
  rcases h2 : provider (st.calls + 1) with ⟨v2, e2⟩
  cases e2 <;> simp [apiToken, h2]

/-- Witness for `cache_renew_failure_overwrites` at the failing provider
and a cache holding `"tokenA"`. -/
theorem cache_renew_failure_overwrites_witness :
    apiToken failingProvider true ⟨"tokenA", 0⟩ =
      (Except.error "provider down", ⟨"", 1⟩) :=
  (cache_renew_failure_overwrites failingProvider ⟨"tokenA", 0⟩ "" "provider down" rfl).1

/-- A decimal digit character parses back to its value. -/
theorem digitVal_digitChar (d : Nat) (h : d < 10) :
    digitVal (Nat.digitChar d) = some d := by
  interval_cases d <;> decide

/-- A decimal digit character is not a sign character. -/
theorem digitChar_ne_sign (d : Nat) (h : d < 10) :
    Nat.digitChar d ≠ '-' ∧ Nat.digitChar d ≠ '+' := by
  interval_cases d <;> decide

/-- Parsing a list of digit characters accumulates their value. -/
theorem parseDigitsAux_map (ds : List Nat) (acc : Nat) (h : ∀ d ∈ ds, d < 10) :
    parseDigitsAux (ds.map Nat.digitChar) acc =
      some (ds.foldl (fun a d => a * 10 + d) acc) := by
  induction ds generalizing acc with
  | nil => rfl
  | cons d rest ih =>
    have hd : d < 10 := h d (by simp)
    simp only [List.map_cons, parseDigitsAux, digitVal_digitChar d hd,
      List.foldl_cons]
    exact ih (acc * 10 + d) (fun x hx => h x (by simp [hx]))

/-- Big-endian digit accumulation agrees with `Nat.ofDigits` on the
little-endian digit list. -/
theorem foldr_eq_ofDigits (L : List Nat) :
    L.foldr (fun d a => a * 10 + d) 0 = Nat.ofDigits 10 L := by
  induction L with
  | nil => simp [Nat.ofDigits]
  | cons d rest ih =>
    simp [Nat.ofDigits_cons, ih]
    ring

/-- With enough fuel, `natCharsAux` produces the big-endian decimal digit
characters of its argument. -/
theorem natCharsAux_eq_digits (fuel : Nat) :
    ∀ n : Nat, n ≤ fuel →
      natCharsAux fuel n = ((Nat.digits 10 n).reverse).map Nat.digitChar := by
  induction fuel with
  | zero =>
    intro n hn
    interval_cases n
    simp [natCharsAux]
  | succ f ih =>
    intro n hn
    by_cases h0 : n = 0
    · subst h0
      simp [natCharsAux]
    · have hpos : 0 < n := Nat.pos_of_ne_zero h0
      have hdiv : n / 10 ≤ f := by
        have : n / 10 < n := Nat.div_lt_self hpos (by norm_num)
        omega
      rw [natCharsAux, if_neg h0, ih (n / 10) hdiv,
        Nat.digits_def' (by norm_num : (1 : Nat) < 10) hpos]
      simp

/-- `natChars` is never empty. -/
theorem natChars_ne_nil (n : Nat) : natChars n ≠ [] := by
  unfold natChars
  by_cases h0 : n = 0
  · simp [h0]
  · rw [if_neg h0, natCharsAux_eq_digits n n le_rfl]
    have : Nat.digits 10 n ≠ [] := Nat.digits_ne_nil_iff_ne_zero.mpr h0
    simp [this]

/-- Parsing the decimal rendering of `n` recovers `n`. -/
theorem parseDigitsAux_natChars (n : Nat) :
    parseDigitsAux (natChars n) 0 = some n := by
  unfold natChars
  by_cases h0 : n = 0
  · simp [h0, parseDigitsAux, digitVal]
  · rw [if_neg h0, natCharsAux_eq_digits n n le_rfl]
    have hlt : ∀ d ∈ (Nat.digits 10 n).reverse, d < 10 := by
      intro d hd
      exact Nat.digits_lt_base (by norm_num) (List.mem_reverse.mp hd)
    rw [parseDigitsAux_map _ 0 hlt, List.foldl_reverse, foldr_eq_ofDigits,
      Nat.ofDigits_digits]

/-- The first character of `natChars n` is a digit character. -/
theorem natChars_cons (n : Nat) :
    ∃ d rest, natChars n = Nat.digitChar d :: rest ∧ d < 10 := by
  by_cases h0 : n = 0
  · subst h0
    exact ⟨0, [], rfl, by norm_num⟩
  · rw [natChars, if_neg h0, natCharsAux_eq_digits n n le_rfl]
    have hne : Nat.digits 10 n ≠ [] := Nat.digits_ne_nil_iff_ne_zero.mpr h0
    rcases hrev : (Nat.digits 10 n).reverse with _ | ⟨d, rest⟩
    · exact absurd (by simpa using hrev) hne
    · refine ⟨d, rest.map Nat.digitChar, by simp, ?_⟩
      have : d ∈ (Nat.digits 10 n).reverse := by rw [hrev]; simp
      exact Nat.digits_lt_base (by norm_num) (List.mem_reverse.mp this)

/-- `goAtoiDigits` on the decimal rendering of a natural number. -/
theorem goAtoiDigits_natChars (n : Nat) :
    goAtoiDigits (natChars n) true =
        (if n ≤ 2 ^ 63 then some (-(n : Int)) else none) ∧
      goAtoiDigits (natChars n) false =
        (if n ≤ 2 ^ 63 - 1 then some ((n : Int)) else none) := by
  constructor <;>
    simp [goAtoiDigits, natChars_ne_nil n, parseDigitsAux_natChars n]

/-- Go `Atoi` is a left inverse of `%d` formatting on the 64-bit range. -/
theorem goAtoi_formatIntChars (i : Int) (h1 : -(2 ^ 63) ≤ i)
    (h2 : i ≤ 2 ^ 63 - 1) : goAtoi (formatIntChars i) = some i := by
  unfold formatIntChars
  by_cases hneg : i < 0
  · rw [if_pos hneg]
    have habs : (i.natAbs : Nat) ≤ 2 ^ 63 := by omega
    have hval : -((i.natAbs : Nat) : Int) = i := by omega
    show goAtoiDigits (natChars i.natAbs) true = some i
    rw [(goAtoiDigits_natChars i.natAbs).1, if_pos habs, hval]
  · rw [if_neg hneg]
    have htn : (i.toNat : Nat) ≤ 2 ^ 63 - 1 := by omega
    have hval : ((i.toNat : Nat) : Int) = i := by omega
    obtain ⟨d, rest, hrepr, hd⟩ := natChars_cons i.toNat
    obtain ⟨hd1, hd2⟩ := digitChar_ne_sign d hd
    rw [hrepr]
    show (if Nat.digitChar d = '-' then goAtoiDigits rest true
      else if Nat.digitChar d = '+' then goAtoiDigits rest false
      else goAtoiDigits (Nat.digitChar d :: rest) false) = some i
    rw [if_neg hd1, if_neg hd2, ← hrepr,
      (goAtoiDigits_natChars i.toNat).2, if_pos htn, hval]

/-- Splitting at the first separator occurrence. -/
theorem splitFirst_append (sep : Char) (xs ys : List Char) (h : sep ∉ xs) :
    splitFirst sep (xs ++ sep :: ys) = some (xs, ys) := by
  induction xs with
  | nil => simp [splitFirst]
  | cons c cs ih =>
    have hc : c ≠ sep := fun hc => h (by simp [hc])
    have hcs : sep ∉ cs := fun hm => h (by simp [hm])
    simp [splitFirst, hc, ih hcs]

/-- `SplitN(s, "-", 3)` on a well-shaped three-segment text. -/
theorem goSplitN_three (p t rest : List Char) (hp : '-' ∉ p) (ht : '-' ∉ t) :
    goSplitN '-' 3 (p ++ '-' :: (t ++ '-' :: rest)) = [p, t, rest] := by
  show goSplitN '-' (1 + 2) _ = _
  rw [goSplitN, splitFirst_append '-' p _ hp]
  show _ :: goSplitN '-' (0 + 2) _ = _
  rw [goSplitN, splitFirst_append '-' t rest ht]
  rfl

/-- If `UnmarshalText` succeeds, the text satisfies the validity check. -/
theorem validTaggedText_of_some (s : String) (t : TaggedID)
    (h : unmarshalText s = some t) : validTaggedText s = true := by
  unfold unmarshalText at h
  split at h
  case h_1 p1 p2 p3 heq =>
    split at h
    case isTrue hc =>
      rcases hc with ⟨hp1, hp2⟩
      cases ha : goAtoi p3 with
      | none => rw [ha] at h; exact absurd h (by simp)
      | some n => simp [validTaggedText, heq, hp1, hp2, ha]
    case isFalse => exact absurd h (by simp)
  case h_2 => exact absurd h (by simp)

/-- C8: `ParseTaggedID` fails with `InvalidIdentifier` on every text that
does not split into exactly 3 dash-delimited segments with segment 1 the
literal `prod`, segment 2 non-empty and segment 3 parsing as an integer;
in particular it fails on `"bad"` and on `"prod--5"`. -/
theorem parse_taggedID_failure (s : String) (h : validTaggedText s = false) :
    unmarshalText s = none ∧ unmarshalText "bad" = none ∧
      unmarshalText "prod--5" = none := by
  refine ⟨?_, by decide, by decide⟩
  cases hu : unmarshalText s with
  | none => rfl
  | some t =>
    rw [validTaggedText_of_some s t hu] at h
    exact absurd h (by simp)

/-- Witness for `parse_taggedID_failure` at the text `"bad"`. -/
theorem parse_taggedID_failure_witness :
    unmarshalText "bad" = none ∧ unmarshalText "bad" = none ∧
      unmarshalText "prod--5" = none :=
  parse_taggedID_failure "bad" (by decide)

/-- C3 counterexample: the round-trip law fails as stated on the valid
tagged-ID text `"prod-x-007"` (type `x` is non-empty and dash-free, and
`007` parses as an integer): parsing succeeds but re-formatting yields
`"prod-x-7"`, not the original text. -/
theorem taggedID_roundtrip_cex :
    (unmarshalText "prod-x-007").map TaggedID.format = some "prod-x-7" ∧
      ("prod-x-7" : String) ≠ "prod-x-007" := by
  decide

/-- C3 amended: `Format` always produces `prefix-type-number`, and the
round-trip law holds for every tagged-ID text whose numeric segment is in
canonical decimal form, i.e. for every text in the image of `Format` on a
tagged ID with prefix `prod`, non-empty dash-free type, and number in the
signed 64-bit range: parsing such a text and re-formatting reproduces it
(equivalently, `ParseTaggedID` is a left inverse of `Format` there). On
texts with a non-canonical numeric segment such as `007`, parsing succeeds
but `Format` normalises the number, so the law fails. -/
theorem taggedID_roundtrip_canonical (t : TaggedID) (h1 : t.pre = "prod")
    (h2 : t.typ.data ≠ []) (h3 : '-' ∉ t.typ.data)
    (h4 : -(2 ^ 63) ≤ t.num) (h5 : t.num ≤ 2 ^ 63 - 1) :
    unmarshalText t.format = some t ∧
      (unmarshalText t.format).map TaggedID.format = some t.format := by
  have hdata : (TaggedID.format t).data =
      t.pre.data ++ '-' :: (t.typ.data ++ '-' :: formatIntChars t.num) := by
    show (t.pre.data ++ '-' :: t.typ.data) ++ '-' :: formatIntChars t.num =
      t.pre.data ++ '-' :: (t.typ.data ++ '-' :: formatIntChars t.num)
    simp
  have hsplit : goSplitN '-' 3 (TaggedID.format t).data =
      ["prod".data, t.typ.data, formatIntChars t.num] := by
    rw [hdata, h1]
    exact goSplitN_three _ _ _ (by decide) h3
  have hparse : unmarshalText t.format = some t := by
    unfold unmarshalText
    rw [hsplit]
    dsimp only
    rw [if_pos ⟨rfl, h2⟩, goAtoi_formatIntChars t.num h4 h5]
    show some (⟨String.mk "prod".data, String.mk t.typ.data, t.num⟩ : TaggedID) = some t
    rw [← h1]
  exact ⟨hparse, by rw [hparse]; rfl⟩

/-- Witness for `taggedID_roundtrip_canonical` at `prod-x-7`. -/
theorem taggedID_roundtrip_canonical_witness :
    unmarshalText (TaggedID.format ⟨"prod", "x", 7⟩) = some ⟨"prod", "x", 7⟩ ∧
      (unmarshalText (TaggedID.format ⟨"prod", "x", 7⟩)).map TaggedID.format =
        some (TaggedID.format ⟨"prod", "x", 7⟩) :=
  taggedID_roundtrip_canonical ⟨"prod", "x", 7⟩ rfl (by decide) (by decide)
    (by norm_num) (by norm_num)

/-- Lookup after a single insert: the inserted key maps to the new value,
every other key is unaffected. -/
theorem alistLookup_insert {α β : Type} [DecidableEq α] (m : List (α × β))
    (k k2 : α) (v : β) :
    alistLookup (alistInsert m k v) k2 =
      if k = k2 then some v else alistLookup m k2 := by
  induction m with
  | nil => simp [alistInsert, alistLookup]
  | cons kv rest ih =>
    by_cases h : kv.1 = k
    · by_cases h2 : k = k2 <;> simp [alistInsert, alistLookup, h, h2]
    · by_cases h3 : kv.1 = k2
      · have h2 : ¬k = k2 := fun he => h (h3.trans he.symm)
        have h4 : ¬k2 = k := fun he => h2 he.symm
        simp [alistInsert, alistLookup, h, h3, h2, h4]
      · simp [alistInsert, alistLookup, h, h3, ih]

/-- A key has a binding exactly when it occurs among the keys. -/
theorem alistLookup_isSome {α β : Type} [DecidableEq α] (m : List (α × β)) (k : α) :
    (alistLookup m k).isSome = true ↔ k ∈ m.map Prod.fst := by
  induction m with
  | nil => simp [alistLookup]
  | cons kv rest ih =>
    by_cases h : kv.1 = k
    · simp [alistLookup, h]
    · have h2 : ¬k = kv.1 := fun he => h he.symm
      simp [alistLookup, h, h2, ih]

/-- Keys after a single insert. -/
theorem alistInsert_keys {α β : Type} [DecidableEq α] (m : List (α × β))
    (k : α) (v : β) :
    (alistInsert m k v).map Prod.fst =
      if k ∈ m.map Prod.fst then m.map Prod.fst else m.map Prod.fst ++ [k] := by
  induction m with
  | nil => simp [alistInsert]
  | cons kv rest ih =>
    by_cases h : kv.1 = k
    · simp [alistInsert, h]
    · have h2 : ¬k = kv.1 := fun he => h he.symm
      simp only [alistInsert, if_neg h, List.map_cons, ih]
      by_cases h3 : k ∈ rest.map Prod.fst <;> simp [h2, h3]

/-- Inserting preserves key uniqueness. -/
theorem alistInsert_nodup {α β : Type} [DecidableEq α] (m : List (α × β))
    (k : α) (v : β) (h : (m.map Prod.fst).Nodup) :
    ((alistInsert m k v).map Prod.fst).Nodup := by
  rw [alistInsert_keys]
  by_cases h2 : k ∈ m.map Prod.fst
  · simpa [h2] using h
  · simp [h2, List.nodup_append, h]

/-- Lookup after inserting a whole list of bindings: the last binding in
the inserted list wins, otherwise the old map answers. -/
theorem alistLookup_insertAll {α β : Type} [DecidableEq α] (l : List (α × β)) :
    ∀ (m : List (α × β)) (k : α),
      alistLookup (alistInsertAll m l) k =
        match lastVal l k with
        | some v => some v
        | none => alistLookup m k := by
  induction l with
  | nil => intro m k; simp [alistInsertAll, lastVal]
  | cons kv rest ih =>
    intro m k
    rw [alistInsertAll, ih]
    cases hl : lastVal rest k with
    | some v => simp [lastVal, hl]
    | none =>
      by_cases h2 : kv.1 = k <;>
        simp [lastVal, hl, h2, alistLookup_insert]

/-- A list has a last binding for `k` exactly when `k` occurs among its
keys. -/
theorem lastVal_isSome {α β : Type} [DecidableEq α] (l : List (α × β)) (k : α) :
    (lastVal l k).isSome = true ↔ k ∈ l.map Prod.fst := by
  induction l with
  | nil => simp [lastVal]
  | cons kv rest ih =>
    cases hl : lastVal rest k with
    | some v =>
      simp only [lastVal, hl, Option.isSome_some, true_iff, List.map_cons,
        List.mem_cons]
      exact Or.inr (ih.mp (by rw [hl]; rfl))
    | none =>
      have hnot : ¬k ∈ rest.map Prod.fst := by
        rw [← ih, hl]
        simp
      by_cases h2 : kv.1 = k
      · simp [lastVal, hl, h2]
      · have h3 : ¬k = kv.1 := fun he => h2 he.symm
        simp [lastVal, hl, h2, h3, hnot]

/-- Key membership after inserting a whole list of bindings. -/
theorem alistInsertAll_keys_mem {α β : Type} [DecidableEq α] (l : List (α × β)) :
    ∀ (m : List (α × β)) (k : α),
      k ∈ (alistInsertAll m l).map Prod.fst ↔
        k ∈ m.map Prod.fst ∨ k ∈ l.map Prod.fst := by
  induction l with
  | nil => intro m k; simp [alistInsertAll]
  | cons kv rest ih =>
    intro m k
    rw [alistInsertAll, ih, alistInsert_keys]
    by_cases h : kv.1 ∈ m.map Prod.fst
    · simp only [if_pos h, List.map_cons, List.mem_cons]
      constructor
      · rintro (hm | hr)
        · exact Or.inl hm
        · exact Or.inr (Or.inr hr)
      · rintro (hm | he | hr)
        · exact Or.inl hm
        · exact Or.inl (he ▸ h)
        · exact Or.inr hr
    · simp [if_neg h, List.mem_append, or_assoc]

/-- Key uniqueness is preserved by inserting a whole list of bindings. -/
theorem alistInsertAll_nodup {α β : Type} [DecidableEq α] (l : List (α × β)) :
    ∀ m : List (α × β), (m.map Prod.fst).Nodup →
      ((alistInsertAll m l).map Prod.fst).Nodup := by
  induction l with
  | nil => intro m h; simpa [alistInsertAll] using h
  | cons kv rest ih =>
    intro m h
    rw [alistInsertAll]
    exact ih _ (alistInsert_nodup m kv.1 kv.2 h)

/-- The keys of the bindings a range-loop over raw references performs. -/
theorem refPairs_keys (rs : List RawReference) :
    (refPairs rs).map Prod.fst = rs.map RawReference.id := by
  simp [refPairs]

/-- The decoder succeeds on a reference with present payload, producing
exactly `decodeEntity`. -/
theorem unmarshalReference_ok (raw : RawReference) (obj : JObj)
    (h : raw.data = some obj) :
    unmarshalReference raw = Except.ok (decodeEntity raw) := by
  simp [unmarshalReference, decodeEntity, h]

/-- `decodePrimary` succeeds when every primary payload is present. -/
theorem decodePrimary_ok (data : List RawReference)
    (h : ∀ r ∈ data, r.data ≠ none) :
    decodePrimary data = Except.ok (List.map decodeEntity data) := by
  induction data with
  | nil => rfl
  | cons raw rest ih =>
    obtain ⟨obj, hobj⟩ : ∃ o, raw.data = some o :=
      Option.ne_none_iff_exists'.mp (h raw (by simp))
    rw [decodePrimary, hobj, unmarshalReference_ok raw obj hobj,
      ih (fun r hr => h r (by simp [hr]))]
    rfl

/-- If `decodePrimary` succeeds, every primary payload was present and the
output is the in-order decode of the input. -/
theorem decodePrimary_ok_implies (data : List RawReference) :
    ∀ ds, decodePrimary data = Except.ok ds →
      (∀ r ∈ data, r.data ≠ none) ∧ ds = List.map decodeEntity data := by
  induction data with
  | nil =>
    intro ds h
    rw [decodePrimary] at h
    exact ⟨by simp, by simpa using (Except.ok.inj h).symm⟩
  | cons raw rest ih =>
    intro ds h
    cases hobj : raw.data with
    | none =>
      rw [decodePrimary, hobj] at h
      exact absurd h (by simp)
    | some obj =>
      rw [decodePrimary, hobj, unmarshalReference_ok raw obj hobj] at h
      dsimp only at h
      cases hrec : decodePrimary rest with
      | error e =>
        rw [hrec] at h
        exact absurd h (by simp)
      | ok es =>
        rw [hrec] at h
        dsimp only at h
        obtain ⟨h1, h2⟩ := ih es hrec
        refine ⟨?_, ?_⟩
        · intro r hr
          rcases List.mem_cons.mp hr with rfl | hr2
          · simp [hobj]
          · exact h1 r hr2
        · have h3 : decodeEntity raw :: es = ds := Except.ok.inj h
          rw [← h3, h2]
          rfl

/-- The included-items loop succeeds when every included payload is
present, and then performs exactly the in-order map insertions. -/
theorem insertIncluded_of_payloads (included : List RawReference) :
    ∀ m : Store, (∀ r ∈ included, r.data ≠ none) →
      insertIncluded m included =
        Except.ok (alistInsertAll m (refPairs included)) := by
  induction included with
  | nil => intro m h; rfl
  | cons raw rest ih =>
    intro m h
    obtain ⟨obj, hobj⟩ : ∃ o, raw.data = some o :=
      Option.ne_none_iff_exists'.mp (h raw (by simp))
    rw [insertIncluded, hobj]
    dsimp only
    rw [ih (alistInsert m raw.id raw) (fun r hr => h r (by simp [hr]))]
    rfl

/-- If the included-items loop succeeds, every included payload was
present and the resulting store is the in-order insertion of all items. -/
theorem insertIncluded_ok (included : List RawReference) :
    ∀ m s : Store, insertIncluded m included = Except.ok s →
      (∀ r ∈ included, r.data ≠ none) ∧
        s = alistInsertAll m (refPairs included) := by
  induction included with
  | nil =>
    intro m s h
    rw [insertIncluded] at h
    exact ⟨by simp, (Except.ok.inj h).symm⟩
  | cons raw rest ih =>
    intro m s h
    cases hobj : raw.data with
    | none =>
      rw [insertIncluded, hobj] at h
      exact absurd h (by simp)
    | some obj =>
      rw [insertIncluded, hobj] at h
      dsimp only at h
      obtain ⟨h1, h2⟩ := ih (alistInsert m raw.id raw) s h
      refine ⟨?_, ?_⟩
      · intro r hr
        rcases List.mem_cons.mp hr with rfl | hr2
        · simp [hobj]
        · exact h1 r hr2
      · rw [h2]
        rfl

/-- Success of the assembler forces all payloads present and pins down the
result: in-order decode of the primary items, and the store built by
inserting the primary items then the included items. -/
theorem unmarshalResults_ok_elim (data included : List RawReference)
    (res : ResultsWithReferences)
    (h : unmarshalResultsWithReferences data included = Except.ok res) :
    (∀ r ∈ data, r.data ≠ none) ∧ (∀ r ∈ included, r.data ≠ none) ∧
      res = ⟨List.map decodeEntity data,
        alistInsertAll (alistInsertAll [] (refPairs data)) (refPairs included)⟩ := by
  rw [unmarshalResultsWithReferences] at h
  cases hdp : decodePrimary data with
  | error e =>
    rw [hdp] at h
    exact absurd h (by simp)
  | ok ds =>
    rw [hdp] at h
    dsimp only at h
    obtain ⟨h1, h2⟩ := decodePrimary_ok_implies data ds hdp
    cases hins : insertIncluded (alistInsertAll [] (refPairs data)) included with
    | error e =>
      rw [hins] at h
      exact absurd h (by simp)
    | ok s =>
      rw [hins] at h
      dsimp only at h
      obtain ⟨h3, h4⟩ := insertIncluded_ok included _ s hins
      refine ⟨h1, h3, ?_⟩
      have h5 : res = ⟨ds, s⟩ := (Except.ok.inj h).symm
      rw [h5, h2, h4]

/-- If some primary item has an absent payload, there is a first such
item. -/
theorem firstWithNoData_of_exists (data : List RawReference)
    (h : ∃ r ∈ data, r.data = none) :
    ∃ r0, firstWithNoData data = some r0 ∧ r0 ∈ data ∧ r0.data = none := by
  induction data with
  | nil => simp at h
  | cons raw rest ih =>
    by_cases h0 : raw.data = none
    · exact ⟨raw, by simp [firstWithNoData, h0], by simp, h0⟩
    · obtain ⟨r, hr, hrd⟩ := h
      rcases List.mem_cons.mp hr with rfl | hr2
      · exact absurd hrd h0
      · obtain ⟨r0, h1, h2, h3⟩ := ih ⟨r, hr2, hrd⟩
        exact ⟨r0, by simp [firstWithNoData, h0, h1], by simp [h2], h3⟩

/-- `decodePrimary` fails with `missingData` naming the first item with an
absent payload. -/
theorem decodePrimary_error_of_first (data : List RawReference) :
    ∀ r0, firstWithNoData data = some r0 →
      decodePrimary data = Except.error (AssembleError.missingData r0.id) := by
  induction data with
  | nil =>
    intro r0 h
    simp [firstWithNoData] at h
  | cons raw rest ih =>
    intro r0 h
    by_cases h0 : raw.data = none
    · rw [firstWithNoData, if_pos h0] at h
      obtain rfl : raw = r0 := Option.some.inj h
      rw [decodePrimary, h0]
    · rw [firstWithNoData, if_neg h0] at h
      obtain ⟨obj, hobj⟩ : ∃ o, raw.data = some o :=
        Option.ne_none_iff_exists'.mp h0
      rw [decodePrimary, hobj, unmarshalReference_ok raw obj hobj, ih r0 h]

/-- C7: when some primary item has an absent payload, the whole assembly
fails with `MissingPayload` naming the offending (first such) item's ID;
no results container is returned. -/
theorem missing_payload_primary (data included : List RawReference)
    (h : ∃ r ∈ data, r.data = none) :
    ∃ r0, firstWithNoData data = some r0 ∧ r0 ∈ data ∧ r0.data = none ∧
      unmarshalResultsWithReferences data included =
        Except.error (AssembleError.missingData r0.id) := by
  obtain ⟨r0, h1, h2, h3⟩ := firstWithNoData_of_exists data h
  refine ⟨r0, h1, h2, h3, ?_⟩
  rw [unmarshalResultsWithReferences, decodePrimary_error_of_first data r0 h1]

/-- Witness for `missing_payload_primary` at a bare primary item with
ID 5. -/
theorem missing_payload_primary_witness :
    unmarshalResultsWithReferences [⟨5, "panels", none⟩] [] =
      Except.error (AssembleError.missingData 5) := by
  obtain ⟨r0, h1, _, _, h4⟩ := missing_payload_primary [⟨5, "panels", none⟩] []
    ⟨⟨5, "panels", none⟩, by simp, rfl⟩
  have h5 : r0 = ⟨5, "panels", none⟩ := by
    have h6 : (some (⟨5, "panels", none⟩ : RawReference)) = some r0 := by
      rw [← h1]
      rfl
    exact (Option.some.inj h6).symm
  rw [h5] at h4
  exact h4

/-- C2 counterexample: an included item that is a bare relationship
pointer (absent payload) is NOT inserted into the store; the whole
assembly fails instead of succeeding. -/
theorem bare_included_rejected_cex :
    unmarshalResultsWithReferences [] [⟨1, "panels", none⟩] =
      Except.error (AssembleError.missingDataIncluded 1) := rfl

/-- C2 amended: on every input on which assembly succeeds, the returned
store has exactly one entry per ID appearing in the primary or included
items: every primary item is inserted keyed by its ID, then every included
item is inserted keyed by its ID, and on collision the (last) included
entry is retained. However, included items that are bare relationship
pointers (absent payload) are not accepted: assembly fails on them, so on
every successful assembly all included payloads are present. -/
theorem store_population_collision (data included : List RawReference)
    (res : ResultsWithReferences)
    (h : unmarshalResultsWithReferences data included = Except.ok res) :
    (res.Refs.map Prod.fst).Nodup ∧
      (∀ k, k ∈ res.Refs.map Prod.fst ↔
        (k ∈ data.map RawReference.id ∨ k ∈ included.map RawReference.id)) ∧
      (∀ r ∈ included, r.data ≠ none) ∧
      (∀ k v, lastVal (refPairs included) k = some v →
        storeLookup res.Refs k = some v) ∧
      (∀ k v, lastVal (refPairs included) k = none →
        lastVal (refPairs data) k = some v →
        storeLookup res.Refs k = some v) := by
  obtain ⟨h1, h2, h3⟩ := unmarshalResults_ok_elim data included res h
  have hrefs : res.Refs =
      alistInsertAll (alistInsertAll [] (refPairs data)) (refPairs included) := by
    rw [h3]
  refine ⟨?_, ?_, h2, ?_, ?_⟩
  · rw [hrefs]
    exact alistInsertAll_nodup _ _ (alistInsertAll_nodup _ [] (by simp))
  · intro k
    rw [hrefs, alistInsertAll_keys_mem, alistInsertAll_keys_mem,
      refPairs_keys, refPairs_keys]
    simp
  · intro k v hkv
    rw [storeLookup, hrefs, alistLookup_insertAll, hkv]
  · intro k v hnone hdata
    rw [storeLookup, hrefs, alistLookup_insertAll, hnone]
    dsimp only
    rw [alistLookup_insertAll, hdata]

/-- Witness for `store_population_collision`: the primary item with ID 1
collides with an included item with the same ID; the included entry is the
one retained. -/
theorem store_population_collision_witness :
    storeLookup [(1, (⟨1, "b", some []⟩ : RawReference)),
        (2, ⟨2, "c", some []⟩)] 1 = some ⟨1, "b", some []⟩ := by
  have h := store_population_collision [⟨1, "a", some []⟩]
    [⟨1, "b", some []⟩, ⟨2, "c", some []⟩]
    ⟨[[("id", JValue.jnum 1), ("type", JValue.jstr "a")]],
      [(1, ⟨1, "b", some []⟩), (2, ⟨2, "c", some []⟩)]⟩ rfl
  exact h.2.2.2.1 1 ⟨1, "b", some []⟩ rfl

/-- C4: decoding a raw reference with present payload yields a value whose
identity fields come from the envelope and whose other fields come from
the payload; payload fields take precedence on key collision, and fields
the payload does not mention retain their envelope-derived values (absent
entirely if not an identity field). -/
theorem decoder_two_pass_merge (raw : RawReference) (obj : JObj)
    (h : raw.data = some obj) :
    ∃ e, unmarshalReference raw = Except.ok e ∧
      (∀ k v, lastVal obj k = some v → getField e k = some v) ∧
      (lastVal obj "id" = none → getField e "id" = some (JValue.jnum raw.id)) ∧
      (lastVal obj "type" = none →
        getField e "type" = some (JValue.jstr raw.ty)) ∧
      (∀ k, k ≠ "id" → k ≠ "type" → lastVal obj k = none →
        getField e k = none) := by
  have hd : decodeEntity raw =
      alistInsertAll (alistInsertAll [] (envelopeObj raw)) obj := by
    simp [decodeEntity, applyObj, h]
  refine ⟨decodeEntity raw, unmarshalReference_ok raw obj h, ?_, ?_, ?_, ?_⟩
  · intro k v hkv
    rw [getField, hd, alistLookup_insertAll, hkv]
  · intro hnone
    rw [getField, hd, alistLookup_insertAll, hnone]
    rfl
  · intro hnone
    rw [getField, hd, alistLookup_insertAll, hnone]
    rfl
  · intro k hk1 hk2 hnone
    rw [getField, hd, alistLookup_insertAll, hnone]
    dsimp only
    have henv : lastVal (envelopeObj raw) k = none := by
      have hne1 : ¬("id" : String) = k := fun he => hk1 he.symm
      have hne2 : ¬("type" : String) = k := fun he => hk2 he.symm
      simp [envelopeObj, lastVal, hne1, hne2]
    rw [alistLookup_insertAll, henv]
    rfl

/-- Witness for `decoder_two_pass_merge` at envelope `{id:7,
type:"panels"}` and payload `{"name":"A"}`. -/
theorem decoder_two_pass_merge_witness :
    getField (decodeEntity ⟨7, "panels", some [("name", JValue.jstr "A")]⟩)
        "name" = some (JValue.jstr "A") ∧
      getField (decodeEntity ⟨7, "panels", some [("name", JValue.jstr "A")]⟩)
        "id" = some (JValue.jnum 7) ∧
      getField (decodeEntity ⟨7, "panels", some [("name", JValue.jstr "A")]⟩)
        "type" = some (JValue.jstr "panels") := by
  obtain ⟨e, he, hp, hid, hty, _⟩ :=
    decoder_two_pass_merge ⟨7, "panels", some [("name", JValue.jstr "A")]⟩
      [("name", JValue.jstr "A")] rfl
  rw [unmarshalReference_ok ⟨7, "panels", some [("name", JValue.jstr "A")]⟩
    [("name", JValue.jstr "A")] rfl] at he
  have he2 : e = decodeEntity ⟨7, "panels", some [("name", JValue.jstr "A")]⟩ :=
    (Except.ok.inj he).symm
  rw [← he2]
  exact ⟨hp "name" (JValue.jstr "A") rfl, hid rfl, hty rfl⟩

/-- C5: `Resolve` on the null typed reference returns an empty result with
no error; on a non-null reference whose ID is absent from the store it
fails with `ReferenceNotFound`; and on a reference whose ID is present it
returns the result of running the reference-aware decoder on the stored
raw reference. -/
theorem resolve_behaviour (store : Store) (ref : RawReference) :
    Resolve none store = Except.ok none ∧
      (storeLookup store ref.id = none →
        Resolve (some ref) store =
          Except.error (ResolveError.notFound ref.id)) ∧
      (∀ dest, storeLookup store ref.id = some dest →
        Resolve (some ref) store =
          match unmarshalReference dest with
          | Except.ok e => Except.ok (some e)
          | Except.error _ =>
            Except.error (ResolveError.decodeFailed ref.id)) := by
  refine ⟨rfl, ?_, ?_⟩
  · intro h
    simp [Resolve, h]
  · intro dest h
    simp only [Resolve, h]
    cases unmarshalReference dest <;> rfl

/-- Witness for `resolve_behaviour`: a store holding only ID 3; resolving
ID 4 fails with not-found, resolving ID 3 decodes the stored reference. -/
theorem resolve_behaviour_witness :
    Resolve (some (⟨4, "panels", none⟩ : RawReference))
        [(3, ⟨3, "panels", some []⟩)] =
        Except.error (ResolveError.notFound 4) ∧
      Resolve (some (⟨3, "panels", none⟩ : RawReference))
        [(3, ⟨3, "panels", some []⟩)] =
        Except.ok (some (decodeEntity ⟨3, "panels", some []⟩)) := by
  constructor
  · exact (resolve_behaviour [(3, ⟨3, "panels", some []⟩)]
      ⟨4, "panels", none⟩).2.1 rfl
  · have h := (resolve_behaviour [(3, ⟨3, "panels", some []⟩)]
      ⟨3, "panels", none⟩).2.2 ⟨3, "panels", some []⟩ rfl
    exact h.trans rfl

/-- C9: accumulation appends each page's primary and included sequences in
page order and stops at the page with a null next link; assembling the
accumulated sequences of pages `[{data:[a,b], included:[x], next:"2"},
{data:[c], included:[y], next:null}]` (all IDs distinct, payloads present)
yields the decoded list `[a,b,c]` in that order and a store containing
exactly the 5 entries for `a,b,c,x,y`. -/
theorem pagination_accumulation (a b c x y : RawReference)
    (hnd : ([a.id, b.id, c.id, x.id, y.id] : List Int).Nodup)
    (ha : a.data ≠ none) (hb : b.data ≠ none) (hc : c.data ≠ none)
    (hx : x.data ≠ none) (hy : y.data ≠ none) :
    accumulatePages [⟨[a, b], [x], some "2"⟩, ⟨[c], [y], none⟩] =
        ([a, b, c], [x, y]) ∧
      keychainsAssemble [⟨[a, b], [x], some "2"⟩, ⟨[c], [y], none⟩] =
        Except.ok ⟨[decodeEntity a, decodeEntity b, decodeEntity c],
          [(a.id, a), (b.id, b), (c.id, c), (x.id, x), (y.id, y)]⟩ := by
  have hacc : accumulatePages [⟨[a, b], [x], some "2"⟩, ⟨[c], [y], none⟩] =
      ([a, b, c], [x, y]) := by
    simp [accumulatePages]
  have hall1 : ∀ r ∈ [a, b, c], r.data ≠ none := by
    intro r hr
    simp only [List.mem_cons, List.not_mem_nil, or_false] at hr
    rcases hr with rfl | rfl | rfl
    · exact ha
    · exact hb
    · exact hc
  have hall2 : ∀ r ∈ [x, y], r.data ≠ none := by
    intro r hr
    simp only [List.mem_cons, List.not_mem_nil, or_false] at hr
    rcases hr with rfl | rfl
    · exact hx
    · exact hy
  simp only [List.nodup_cons, List.mem_cons, List.not_mem_nil, or_false,
    not_or, List.nodup_nil, and_true] at hnd
  obtain ⟨⟨hab, hac, hax, hay⟩, ⟨hbc, hbx, hby⟩, ⟨hcx, hcy⟩, hxy⟩ := hnd
  refine ⟨hacc, ?_⟩
  unfold keychainsAssemble
  rw [hacc]
  rw [unmarshalResultsWithReferences, decodePrimary_ok _ hall1,
    insertIncluded_of_payloads _ _ hall2]
  dsimp only
  simp [refPairs, alistInsertAll, alistInsert, hab, hac, hax, hay, hbc,
    hbx, hby, hcx, hcy, hxy]

/-- Witness for `pagination_accumulation` at five distinct concrete raw
references. -/
theorem pagination_accumulation_witness :
    accumulatePages
        [⟨[⟨1, "t", some []⟩, ⟨2, "t", some []⟩], [⟨4, "t", some []⟩], some "2"⟩,
          ⟨[⟨3, "t", some []⟩], [⟨5, "t", some []⟩], none⟩] =
        ([⟨1, "t", some []⟩, ⟨2, "t", some []⟩, ⟨3, "t", some []⟩],
          [⟨4, "t", some []⟩, ⟨5, "t", some []⟩]) ∧
      keychainsAssemble
        [⟨[⟨1, "t", some []⟩, ⟨2, "t", some []⟩], [⟨4, "t", some []⟩], some "2"⟩,
          ⟨[⟨3, "t", some []⟩], [⟨5, "t", some []⟩], none⟩] =
        Except.ok ⟨[decodeEntity ⟨1, "t", some []⟩, decodeEntity ⟨2, "t", some []⟩,
            decodeEntity ⟨3, "t", some []⟩],
          [(1, ⟨1, "t", some []⟩), (2, ⟨2, "t", some []⟩), (3, ⟨3, "t", some []⟩),
            (4, ⟨4, "t", some []⟩), (5, ⟨5, "t", some []⟩)]⟩ :=
  pagination_accumulation ⟨1, "t", some []⟩ ⟨2, "t", some []⟩ ⟨3, "t", some []⟩
    ⟨4, "t", some []⟩ ⟨5, "t", some []⟩ (by decide) (by decide) (by decide)
    (by decide) (by decide) (by decide)

end ButterflyMX
